import Mathlib

/-!
Verification of the rPPG signal-extraction pipeline (`SignalProcessor` in
`src/services/signalProcessing.ts`).

The TypeScript class is shallowly embedded as a pure state-passing model:
JavaScript numbers are idealized as real numbers, mutable fields become the
`ProcState` record, and each method becomes a function from state to state
(plus its returned value).  Modelling conventions, noted at each use site:
division by zero denotes `0` (Lean's convention; the JS code only divides by
zero in degenerate states it guards away or where the result is discarded),
out-of-range array reads denote `0` (JS yields `undefined`, which makes every
comparison false, and `0` behaves identically in the comparisons performed),
and `x || y` on numbers is `jsOr` (falsy `0` selects `y`).
-/

open scoped Classical

noncomputable section

namespace Biosens

/-- Constants from `src/constants.ts` (`part_003`). -/
def BUFFER_SIZE : ℕ := 512

/-- `MIN_BPM / 60`, from `src/constants.ts`. -/
def MIN_FREQ : ℝ := 40 / 60

/-- `MAX_BPM / 60`, from `src/constants.ts`. -/
def MAX_FREQ : ℝ := 200 / 60

/-- RGB triplet from `src/types.ts`. -/
structure RGB where
  r : ℝ
  g : ℝ
  b : ℝ

/-- The `sessionMetrics` field of `SignalProcessor`. -/
structure SessionMetrics where
  bpm : List ℝ
  hrv : List ℝ
  stress : List ℝ

/-- The mutable fields of the `SignalProcessor` class. -/
structure ProcState where
  buffer : List ℝ
  timestamps : List ℝ
  sessionMetrics : SessionMetrics
  lastBpm : ℝ

/-- The record returned by `calculateMetrics`. -/
structure Estimate where
  bpm : ℝ
  rmssd : ℝ
  snr : ℝ

/-- The record returned by `getFinalReport`. -/
structure Report where
  bpm : ℝ
  hrv : ℝ
  stress : ℝ
  respiration : ℝ
  confidence : ℝ

/-- Field-initialized state of a freshly constructed `SignalProcessor`. -/
def initState : ProcState :=
  { buffer := [], timestamps := [], sessionMetrics := ⟨[], [], []⟩, lastBpm := 0 }

/-- `reset()` (lines 27-32): reinitializes every mutable field. -/
def reset (_s : ProcState) : ProcState := initState

/-- `addSample(rgb, timestamp)` (lines 37-49): pushes `g - r` and the
timestamp, then shifts both arrays when the buffer exceeds `BUFFER_SIZE`. -/
def addSample (rgb : RGB) (timestamp : ℝ) (s : ProcState) : ProcState :=
  let signal := rgb.g - rgb.r
  let buffer := s.buffer ++ [signal]
  let timestamps := s.timestamps ++ [timestamp]
  if BUFFER_SIZE < buffer.length then
    { s with buffer := buffer.tail, timestamps := timestamps.tail }
  else
    { s with buffer := buffer, timestamps := timestamps }

/-- Folds a list of `(rgb, timestamp)` capture events through `addSample`. -/
def addSamples (s : ProcState) (ops : List (RGB × ℝ)) : ProcState :=
  ops.foldl (fun st p => addSample p.1 p.2 st) s

/-- `applyFilter(data)` (lines 56-80): mean subtraction, then a centered
moving average of radius `win = 3` clamped at the edges.  The inner `for j`
loop runs over `max(0, i-3) .. min(len-1, i+3)`; natural subtraction `i - 3`
realizes the `max`. -/
def applyFilter (data : List ℝ) : List ℝ :=
  if data.length < 2 then data
  else
    let avg := data.sum / (data.length : ℝ)
    let detrended := data.map (fun x => x - avg)
    (List.range detrended.length).map (fun i =>
      let lo := i - 3
      let hi := min (detrended.length - 1) (i + 3)
      let js := List.range' lo (hi + 1 - lo)
      (js.map (fun j => detrended.getD j 0)).sum / (js.length : ℝ))

/-- `processBuffer()` (lines 82-86). -/
def processBuffer (s : ProcState) : List ℝ :=
  if s.buffer.length < 30 then [] else applyFilter s.buffer

/-- JS `x || y` on numbers: `y` when `x` is falsy (here, zero). -/
def jsOr (x y : ℝ) : ℝ := if x = 0 then y else x

/-- JS `Math.round`: half-integers round toward positive infinity. -/
def roundJS (x : ℝ) : ℝ := (⌊x + 1 / 2⌋ : ℤ)

/-- Insertion step for `sortAsc`. -/
def insertSorted (x : ℝ) : List ℝ → List ℝ
  | [] => [x]
  | y :: ys => if x ≤ y then x :: y :: ys else y :: insertSorted x ys

/-- `[...arr].sort((a, b) => a - b)`: the ascending reordering of a numeric
array, modelled by insertion sort (extensionally the JS result). -/
def sortAsc : List ℝ → List ℝ
  | [] => []
  | x :: xs => insertSorted x (sortAsc xs)

/-- `getMedian` from `getFinalReport` (lines 188-193). -/
def getMedian (arr : List ℝ) : ℝ :=
  if arr.length = 0 then 0
  else
    let sorted := sortAsc arr
    let mid := sorted.length / 2
    if sorted.length % 2 ≠ 0 then sorted.getD mid 0
    else (sorted.getD (mid - 1) 0 + sorted.getD mid 0) / 2

/-- JS `arr.slice(start)` for a possibly negative `start`: a negative index
counts from the end (clamped at `0`), a nonnegative one from the front
(clamped at the length).  `arr.slice(-0)` is `arr.slice(0)`, the whole
array. -/
def jsSlice (l : List ℝ) (start : ℤ) : List ℝ :=
  if start < 0 then l.drop (max ((l.length : ℤ) + start) 0).toNat
  else l.drop (min start (l.length : ℤ)).toNat

/-- Read of `spectrum[i]` for the `Int`-valued bin counter: an out-of-range
read is `undefined` in JS, whose comparisons are all false; `0` behaves
identically in every comparison the code performs on spectrum values. -/
def specAt (spec : List ℝ) (i : ℤ) : ℝ :=
  if 0 ≤ i then spec.getD i.toNat 0 else 0

/-- The inclusive integer range `lo .. hi` of a JS `for` loop counter. -/
def intRange (lo hi : ℤ) : List ℤ :=
  (List.range (hi + 1 - lo).toNat).map (fun k => lo + (k : ℤ))

/-- Swap of two entries of a functional array (`[re[i], re[j]] = ...`). -/
def fswap (f : ℕ → ℝ) (a b : ℕ) : ℕ → ℝ :=
  fun k => if k = a then f b else if k = b then f a else f k

/-- The inner `while (m >= 1 && j >= m) { j -= m; m >>= 1; }` of the
bit-reversal pass of `fftIterative` (lines 247-251). -/
def bitrevWhile (j m : ℕ) : ℕ × ℕ :=
  if 1 ≤ m ∧ m ≤ j then bitrevWhile (j - m) (m / 2) else (j, m)
termination_by m
decreasing_by exact Nat.div_lt_self (by omega) (by omega)

/-- One update of the bit-reversal counter `j`: run the inner while with
`m = n >> 1`, then `j += m`. -/
def bitrevNext (n j : ℕ) : ℕ :=
  let p := bitrevWhile j (n / 2)
  p.1 + p.2

/-- The bit-reversal permutation pass of `fftIterative` (lines 241-253):
for each `i`, conditionally swap entries `i` and `j`, then step `j`. -/
def bitrevPass (n : ℕ) (re im : ℕ → ℝ) : (ℕ → ℝ) × (ℕ → ℝ) :=
  let st := (List.range n).foldl
    (fun (st : ((ℕ → ℝ) × (ℕ → ℝ)) × ℕ) i =>
      let arrays := if i < st.2 then (fswap st.1.1 i st.2, fswap st.1.2 i st.2)
        else st.1
      (arrays, bitrevNext n st.2))
    ((re, im), 0)
  st.1

/-- One butterfly update of `fftIterative` (lines 266-272) at indices
`i` and `j = i + mmax`. -/
def butterfly (p : (ℕ → ℝ) × (ℕ → ℝ)) (wr wi : ℝ) (i j : ℕ) :
    (ℕ → ℝ) × (ℕ → ℝ) :=
  let tempr := wr * p.1 j - wi * p.2 j
  let tempi := wr * p.2 j + wi * p.1 j
  let re1 := Function.update p.1 j (p.1 i - tempr)
  let im1 := Function.update p.2 j (p.2 i - tempi)
  let re2 := Function.update re1 i (re1 i + tempr)
  let im2 := Function.update im1 i (im1 i + tempi)
  (re2, im2)

/-- Indices `m, m + istep, m + 2·istep, ...` below `n` of the innermost
`for (i = m; i < n; i += istep)` loop. -/
def strideIdx (n m istep : ℕ) : List ℕ :=
  (List.range ((n - m + istep - 1) / istep)).map (fun k => m + k * istep)

/-- The `for (m = 0; m < mmax; m++)` pass of `fftIterative` (lines 264-277),
threading the twiddle recurrence `(wr, wi)` through the butterflies. -/
def fftPass (n mmax istep : ℕ) (theta : ℝ) (p : (ℕ → ℝ) × (ℕ → ℝ)) :
    (ℕ → ℝ) × (ℕ → ℝ) :=
  let wtemp0 := Real.sin (0.5 * theta)
  let wpr := -2.0 * wtemp0 * wtemp0
  let wpi := Real.sin theta
  let st := (List.range mmax).foldl
    (fun (st : ((ℕ → ℝ) × (ℕ → ℝ)) × ℝ × ℝ) m =>
      let wr := st.2.1
      let wi := st.2.2
      let arrays := (strideIdx n m istep).foldl
        (fun q i => butterfly q wr wi i (i + mmax)) st.1
      (arrays, wr * wpr - wi * wpi + wr, wi * wpr + wr * wpi + wi))
    (p, 1.0, 0.0)
  st.1

/-- The outer `while (n > mmax)` doubling loop of `fftIterative`
(lines 255-279).  The `0 < mmax` conjunct only serves termination: the
source enters with `mmax = 1` and doubles it, so `mmax` is always
positive there. -/
def fftPasses (n mmax : ℕ) (p : (ℕ → ℝ) × (ℕ → ℝ)) : (ℕ → ℝ) × (ℕ → ℝ) :=
  if 0 < mmax ∧ mmax < n then
    let istep := 2 * mmax
    let theta := -Real.pi / (mmax : ℝ)
    fftPasses n istep (fftPass n mmax istep theta p)
  else p
termination_by n - mmax
decreasing_by omega

/-- `fftIterative(re, im)` (lines 239-280): bit reversal then the
butterfly passes starting from `mmax = 1`. -/
def fftIterative (n : ℕ) (re im : ℕ → ℝ) : (ℕ → ℝ) × (ℕ → ℝ) :=
  fftPasses n 1 (bitrevPass n re im)

/-- `computeFFT(inputReal)` (lines 221-236): zero-pad to the next power of
two, run the iterative FFT, and return the magnitudes of the first half of
the bins.  `2^ceil(log2 n)` is `2 ^ Nat.clog 2 n` for `n ≥ 1`; for `n = 0`
the JS expression is `2^(-∞) = 0` and every loop is vacuous. -/
def computeFFT (inputReal : List ℝ) : List ℝ :=
  let n := inputReal.length
  let powerOf2 := if n = 0 then 0 else 2 ^ Nat.clog 2 n
  let re : ℕ → ℝ := fun k => if k < n then inputReal.getD k 0 else 0
  let im : ℕ → ℝ := fun _ => 0
  let q := fftIterative powerOf2 re im
  (List.range (powerOf2 / 2)).map (fun i =>
    Real.sqrt (q.1 i * q.1 i + q.2 i * q.2 i))

/-- `findPeaks(data)` (lines 209-219): 5-point strict local maxima with a
positivity floor, collected for `i` in `2 .. data.length - 3`. -/
def findPeaks (data : List ℝ) : List ℕ :=
  (List.range' 2 (data.length - 4)).foldl
    (fun peaks i =>
      if data.getD i 0 > data.getD (i - 1) 0 ∧ data.getD i 0 > data.getD (i - 2) 0 ∧
          data.getD i 0 > data.getD (i + 1) 0 ∧ data.getD i 0 > data.getD (i + 2) 0 ∧
          data.getD i 0 > 0
      then peaks ++ [i] else peaks) []

/-- The RMSSD computation of `calculateMetrics` (lines 141-157), as a
function of the detected peaks and the dynamic sample rate.  Only the
current gap `diffMs` is checked against the 300-1300 ms bound before the
squared difference with the (unchecked) previous gap is accumulated. -/
def rmssdOf (peaks : List ℕ) (realFps : ℝ) : ℝ :=
  if 2 < peaks.length then
    let sc := (List.range' 1 (peaks.length - 1)).foldl
      (fun (acc : ℝ × ℕ) i =>
        let diffMs := ((peaks.getD i 0 : ℝ) - (peaks.getD (i - 1) 0 : ℝ)) * (1000 / realFps)
        if (300 < diffMs ∧ diffMs < 1300) ∧ 1 < i then
          let prevDiff := ((peaks.getD (i - 1) 0 : ℝ) - (peaks.getD (i - 2) 0 : ℝ)) * (1000 / realFps)
          let delta := diffMs - prevDiff
          (acc.1 + delta * delta, acc.2 + 1)
        else acc)
      (0, 0)
    if 0 < sc.2 then Real.sqrt (sc.1 / (sc.2 : ℝ)) else 0
  else 0

/-- The stress score of the session-accumulation block (lines 177-179). -/
def stressOf (rawBpm rmssd : ℝ) : ℝ :=
  let stressBpm := min 100 (max 0 ((rawBpm - 50) * 1.5))
  let stressHrv := min 100 (max 0 (100 - rmssd))
  stressBpm * 0.4 + stressHrv * 0.6

/-- Step 1 of `calculateMetrics` (lines 92-95): the dynamic sampling rate
`n / durationSec` computed from the first and last buffered timestamps. -/
def dynamicFps (s : ProcState) : ℝ :=
  (s.buffer.length : ℝ) /
    ((s.timestamps.getD (s.buffer.length - 1) 0 - s.timestamps.getD 0 0) / 1000)

/-- Step 2 (lines 97-102): filter the buffer and slice off the most recent
`windowSize = min(filtered.length, floor(realFps * 6))` samples. -/
def recentOf (s : ProcState) : List ℝ :=
  let filtered := applyFilter s.buffer
  jsSlice filtered (-(min (filtered.length : ℤ) ⌊dynamicFps s * 6⌋))

/-- Hamming windowing (lines 104-107). -/
def windowedOf (s : ProcState) : List ℝ :=
  (List.range (recentOf s).length).map (fun i =>
    (recentOf s).getD i 0 *
      (0.54 - 0.46 * Real.cos (2 * Real.pi * (i : ℝ) / (((recentOf s).length : ℝ) - 1))))

/-- Step 3 (line 110): magnitude spectrum of the windowed slice. -/
def spectrumOf (s : ProcState) : List ℝ :=
  computeFFT (windowedOf s)

/-- `binSize = realFps / recentData.length` (line 115). -/
def binSizeOf (s : ProcState) : ℝ :=
  dynamicFps s / ((recentOf s).length : ℝ)

/-- The searched bin indices `minBin .. maxBin` (lines 116-117). -/
def binRange (s : ProcState) : List ℤ :=
  intRange ⌊MIN_FREQ / binSizeOf s⌋ ⌈MAX_FREQ / binSizeOf s⌉

/-- Step 4 (lines 113-124): in-band spectral peak `(maxMag, maxIndex)`. -/
def peakOf (s : ProcState) : ℝ × ℤ :=
  (binRange s).foldl
    (fun (acc : ℝ × ℤ) i =>
      if specAt (spectrumOf s) i > acc.1 then (specAt (spectrumOf s) i, i) else acc)
    (0, 0)

/-- Step 5 (lines 126-137): `dominantFreq * 60` with jump rejection against
`lastBpm` (blend 80 % previous / 20 % new on a > 20 BPM jump). -/
def rawBpmOf (s : ProcState) : ℝ :=
  let rawBpm0 := ((peakOf s).2 : ℝ) * binSizeOf s * 60
  if 0 < s.lastBpm ∧ 20 < |rawBpm0 - s.lastBpm| then
    s.lastBpm * 0.8 + rawBpm0 * 0.2
  else rawBpm0

/-- Step 7 (lines 159-168): SNR as peak magnitude over the mean in-band
magnitude more than 2 bins away from the peak (`|| 1` guards empty noise). -/
def snrOf (s : ProcState) : ℝ :=
  let nz := (binRange s).foldl
    (fun (acc : ℝ × ℕ) i =>
      if 2 < |i - (peakOf s).2| then (acc.1 + specAt (spectrumOf s) i, acc.2 + 1) else acc)
    (0, 0)
  (peakOf s).1 / jsOr (nz.1 / (nz.2 : ℝ)) 1

/-- The window analysis of `calculateMetrics` (lines 95-168): the body after
the two early-return guards, returning the `{ bpm: rawBpm, rmssd, snr }`
record of line 184 (step 6, RMSSD, is `rmssdOf` over `findPeaks` of the
recent slice). -/
def analyzeWindow (s : ProcState) : Estimate :=
  ⟨rawBpmOf s, rmssdOf (findPeaks (recentOf s)) (dynamicFps s), snrOf s⟩

/-- `calculateMetrics(addToSession)` (lines 88-185): the two early-return
guards (fewer than 60 samples; zero elapsed duration), then the window
analysis, the session-accumulation gate (lines 170-182) and the `lastBpm`
state write, returning the estimate with the updated state. -/
def calculateMetrics (s : ProcState) (addToSession : Bool) : Estimate × ProcState :=
  let n := s.buffer.length
  if n < 60 then (⟨0, 0, 0⟩, s)
  else
    let durationSec := (s.timestamps.getD (n - 1) 0 - s.timestamps.getD 0 0) / 1000
    if durationSec = 0 then (⟨0, 0, 0⟩, s)
    else
      let est := analyzeWindow s
      let sm := if addToSession = true ∧ 1.3 < est.snr ∧ 45 < est.bpm ∧ est.bpm < 180 then
          { bpm := s.sessionMetrics.bpm ++ [est.bpm]
            hrv := if 0 < est.rmssd then s.sessionMetrics.hrv ++ [est.rmssd]
              else s.sessionMetrics.hrv
            stress := s.sessionMetrics.stress ++ [stressOf est.bpm est.rmssd] }
        else s.sessionMetrics
      (est, { s with sessionMetrics := sm, lastBpm := est.bpm })

/-- `getFinalReport()` (lines 187-207). -/
def getFinalReport (s : ProcState) : Report :=
  let avgBpm := getMedian s.sessionMetrics.bpm
  let avgHrv := getMedian s.sessionMetrics.hrv
  let avgStress := getMedian s.sessionMetrics.stress
  let respRate := if 0 < avgBpm then avgBpm / 4 else 15
  { bpm := jsOr (roundJS avgBpm) 0
    hrv := jsOr (roundJS avgHrv) 0
    stress := jsOr (roundJS avgStress) 0
    respiration := jsOr (roundJS respRate) 0
    confidence := if 5 < s.sessionMetrics.bpm.length then 1 else 0 }

/-! ### General helper lemmas -/

/-- A `foldl` preserves any invariant preserved by its step function. -/
theorem foldl_inv {α β : Type} (P : β → Prop) (f : β → α → β) (l : List α) (b : β)
    (hb : P b) (hf : ∀ b a, P b → P (f b a)) : P (l.foldl f b) := by
  induction l generalizing b with
  | nil => exact hb
  | cons a l ih => exact ih _ (hf _ _ hb)

/-- `tail` distributes over appending a single element to a nonempty list. -/
theorem tail_append_singleton {α : Type} {l : List α} (h : l ≠ []) (x : α) :
    (l ++ [x]).tail = l.tail ++ [x] := by
  cases l with
  | nil => exact absurd rfl h
  | cons a t => simp

/-- Evaluation rule for `roundJS`. -/
theorem roundJS_eq (x : ℝ) (z : ℤ) (h1 : (z : ℝ) ≤ x + 1 / 2) (h2 : x + 1 / 2 < z + 1) :
    roundJS x = (z : ℝ) := by
  unfold roundJS
  exact_mod_cast congrArg (Int.cast : ℤ → ℝ) (Int.floor_eq_iff.mpr ⟨h1, h2⟩)

/-! ### Zero propagation through the pipeline (flat-signal analysis) -/

/-- All entries of a list are zero. -/
def allZero (l : List ℝ) : Prop := ∀ x ∈ l, x = 0

/-- Both functional arrays are identically zero. -/
def ZeroPair (p : (ℕ → ℝ) × (ℕ → ℝ)) : Prop := (∀ k, p.1 k = 0) ∧ (∀ k, p.2 k = 0)

theorem getD_zero {l : List ℝ} (h : allZero l) (i : ℕ) : l.getD i 0 = 0 := by
  rcases lt_or_ge i l.length with hi | hi
  · rw [List.getD_eq_getElem l 0 hi]
    exact h _ (List.getElem_mem hi)
  · exact List.getD_eq_default l 0 hi

theorem sum_of_const {l : List ℝ} {c : ℝ} (h : ∀ x ∈ l, x = c) :
    l.sum = (l.length : ℝ) * c := by
  induction l with
  | nil => simp
  | cons a t ih =>
    simp only [List.mem_cons, forall_eq_or_imp] at h
    rw [List.sum_cons, h.1, ih h.2, List.length_cons]
    push_cast
    ring

/-- A constant window filters to the all-zero window (mean removal kills the
constant, and the moving average of zeros is zero). -/
theorem applyFilter_const {l : List ℝ} {c : ℝ} (h : ∀ x ∈ l, x = c)
    (h2 : 2 ≤ l.length) : allZero (applyFilter l) := by
  intro y hy
  unfold applyFilter at hy
  rw [if_neg (by omega)] at hy
  have havg : l.sum / (l.length : ℝ) = c := by
    rw [sum_of_const h]
    have : (l.length : ℝ) ≠ 0 := by
      have : (0:ℕ) < l.length := by omega
      exact_mod_cast this.ne'
    field_simp
  have hdet : allZero (l.map (fun x => x - l.sum / (l.length : ℝ))) := by
    intro z hz
    obtain ⟨x, hx, rfl⟩ := List.mem_map.mp hz
    rw [h x hx, havg, sub_self]
  obtain ⟨i, _, rfl⟩ := List.mem_map.mp hy
  have hz : ∀ j, (l.map (fun x => x - l.sum / (l.length : ℝ))).getD j 0 = 0 :=
    getD_zero hdet
  have : ∀ js : List ℕ,
      (js.map (fun j => (l.map (fun x => x - l.sum / (l.length : ℝ))).getD j 0)).sum = 0 := by
    intro js
    apply List.sum_eq_zero
    intro z hzz
    obtain ⟨j, _, rfl⟩ := List.mem_map.mp hzz
    exact hz j
  simp only [this, zero_div]

theorem jsSlice_allZero {l : List ℝ} (h : allZero l) (k : ℤ) :
    allZero (jsSlice l k) := by
  intro x hx
  unfold jsSlice at hx
  split at hx <;> exact h x (List.mem_of_mem_drop hx)

theorem windowedOf_allZero {s : ProcState} (h : allZero (recentOf s)) :
    allZero (windowedOf s) := by
  intro y hy
  unfold windowedOf at hy
  obtain ⟨i, _, rfl⟩ := List.mem_map.mp hy
  rw [getD_zero h i, zero_mul]

theorem fswap_zero {f : ℕ → ℝ} (h : ∀ k, f k = 0) (a b : ℕ) :
    ∀ k, fswap f a b k = 0 := by
  intro k
  unfold fswap
  split
  · exact h b
  · split
    · exact h a
    · exact h k

theorem butterfly_zero {p : (ℕ → ℝ) × (ℕ → ℝ)} (h : ZeroPair p) (wr wi : ℝ) (i j : ℕ) :
    ZeroPair (butterfly p wr wi i j) := by
  obtain ⟨h1, h2⟩ := h
  constructor <;> intro k <;>
    simp [butterfly, Function.update_apply, h1, h2]

theorem bitrevPass_zero (n : ℕ) {re im : ℕ → ℝ} (h1 : ∀ k, re k = 0)
    (h2 : ∀ k, im k = 0) : ZeroPair (bitrevPass n re im) := by
  unfold bitrevPass
  have := foldl_inv (fun (st : ((ℕ → ℝ) × (ℕ → ℝ)) × ℕ) => ZeroPair st.1)
    (fun st i =>
      (if i < st.2 then (fswap st.1.1 i st.2, fswap st.1.2 i st.2) else st.1,
        bitrevNext n st.2))
    (List.range n) ((re, im), 0) ⟨h1, h2⟩ ?_
  · exact this
  · rintro ⟨⟨a, b⟩, j⟩ i ⟨ha, hb⟩
    dsimp only
    split
    · exact ⟨fswap_zero ha i j, fswap_zero hb i j⟩
    · exact ⟨ha, hb⟩

theorem fftPass_zero (n mmax istep : ℕ) (theta : ℝ) {p : (ℕ → ℝ) × (ℕ → ℝ)}
    (h : ZeroPair p) : ZeroPair (fftPass n mmax istep theta p) := by
  unfold fftPass
  refine foldl_inv (fun (st : ((ℕ → ℝ) × (ℕ → ℝ)) × ℝ × ℝ) => ZeroPair st.1)
    _ (List.range mmax) (p, 1.0, 0.0) h ?_
  rintro ⟨q, wr, wi⟩ m hq
  dsimp only
  exact foldl_inv ZeroPair _ (strideIdx n m istep) q hq
    (fun q' i hq' => butterfly_zero hq' wr wi i (i + mmax))

theorem fftPasses_zero (d : ℕ) : ∀ (n mmax : ℕ) (p : (ℕ → ℝ) × (ℕ → ℝ)),
    n - mmax ≤ d → ZeroPair p → ZeroPair (fftPasses n mmax p) := by
  induction d with
  | zero =>
    intro n mmax p hle h
    unfold fftPasses
    split
    · omega
    · exact h
  | succ d ih =>
    intro n mmax p hle h
    unfold fftPasses
    split
    · rename_i hc
      exact ih n (2 * mmax) _ (by omega) (fftPass_zero n mmax (2 * mmax) _ h)
    · exact h

theorem computeFFT_allZero {l : List ℝ} (h : allZero l) : allZero (computeFFT l) := by
  intro y hy
  unfold computeFFT at hy
  obtain ⟨i, _, rfl⟩ := List.mem_map.mp hy
  have hz : ZeroPair (fftIterative (if l.length = 0 then 0 else 2 ^ Nat.clog 2 l.length)
      (fun k => if k < l.length then l.getD k 0 else 0) (fun _ => 0)) := by
    unfold fftIterative
    apply fftPasses_zero _ _ _ _ le_rfl
    apply bitrevPass_zero
    · intro k
      split
      · exact getD_zero h k
      · rfl
    · intro k; rfl
  rw [hz.1 i, hz.2 i]
  simp [Real.sqrt_zero]

theorem recentOf_allZero {s : ProcState} {c : ℝ} (hc : ∀ x ∈ s.buffer, x = c)
    (h2 : 2 ≤ s.buffer.length) : allZero (recentOf s) := by
  unfold recentOf
  exact jsSlice_allZero (applyFilter_const hc h2) _

theorem spectrumOf_allZero {s : ProcState} (h : allZero (recentOf s)) :
    allZero (spectrumOf s) :=
  computeFFT_allZero (windowedOf_allZero h)

theorem specAt_zero {spec : List ℝ} (h : allZero spec) (i : ℤ) : specAt spec i = 0 := by
  unfold specAt
  split
  · exact getD_zero h _
  · rfl

theorem peakOf_flat {s : ProcState} (h : allZero (spectrumOf s)) : peakOf s = (0, 0) := by
  unfold peakOf
  refine foldl_inv (fun acc : ℝ × ℤ => acc = (0, 0)) _ (binRange s) (0, 0) rfl ?_
  intro acc i hacc
  dsimp only
  rw [hacc, specAt_zero h]
  simp

theorem rawBpmOf_flat {s : ProcState} (h : allZero (spectrumOf s)) :
    rawBpmOf s = if 20 < s.lastBpm then s.lastBpm * 0.8 else 0 := by
  unfold rawBpmOf
  rw [peakOf_flat h]
  dsimp only
  rw [Int.cast_zero, zero_mul, zero_mul]
  have habs : ∀ l : ℝ, 0 < l → |0 - l| = l := fun l hl => by
    rw [zero_sub, abs_neg, abs_of_pos hl]
  by_cases hl : 20 < s.lastBpm
  · rw [if_pos ⟨by linarith, by rw [habs _ (by linarith)]; exact hl⟩, if_pos hl]
    ring
  · rw [if_neg, if_neg hl]
    rintro ⟨h1, h2⟩
    rw [habs _ h1] at h2
    exact hl h2

theorem snrOf_flat {s : ProcState} (h : allZero (spectrumOf s)) : snrOf s = 0 := by
  unfold snrOf
  rw [peakOf_flat h]
  dsimp only
  exact zero_div _

theorem findPeaks_allZero {d : List ℝ} (h : allZero d) : findPeaks d = [] := by
  unfold findPeaks
  refine foldl_inv (fun acc : List ℕ => acc = []) _ _ [] rfl ?_
  intro acc i hacc
  dsimp only
  have hneg : ¬(d.getD i 0 > d.getD (i - 1) 0 ∧ d.getD i 0 > d.getD (i - 2) 0 ∧
      d.getD i 0 > d.getD (i + 1) 0 ∧ d.getD i 0 > d.getD (i + 2) 0 ∧ d.getD i 0 > 0) := by
    rintro ⟨-, -, -, -, h5⟩
    rw [getD_zero h i] at h5
    exact lt_irrefl 0 h5
  rw [if_neg hneg, hacc]

theorem rmssdOf_nil (fps : ℝ) : rmssdOf [] fps = 0 := by
  unfold rmssdOf
  norm_num

/-- On a constant buffer the whole analysis collapses: the spectrum is all
zero, so the raw bpm is 0 and only the jump-rejection blend against
`lastBpm` can make the reported bpm nonzero; snr and rmssd are 0. -/
theorem analyzeWindow_flat {s : ProcState} {c : ℝ} (hc : ∀ x ∈ s.buffer, x = c)
    (h2 : 2 ≤ s.buffer.length) :
    (analyzeWindow s).bpm = (if 20 < s.lastBpm then s.lastBpm * 0.8 else 0) ∧
    (analyzeWindow s).snr = 0 ∧ (analyzeWindow s).rmssd = 0 := by
  have hr := recentOf_allZero hc h2
  have hs := spectrumOf_allZero hr
  refine ⟨rawBpmOf_flat hs, snrOf_flat hs, ?_⟩
  show rmssdOf (findPeaks (recentOf s)) (dynamicFps s) = 0
  rw [findPeaks_allZero hr, rmssdOf_nil]

/-- Past both guards, the estimate returned by `calculateMetrics` is the
window analysis. -/
theorem calculateMetrics_heavy (s : ProcState) (ats : Bool)
    (h60 : ¬s.buffer.length < 60)
    (hdur : (s.timestamps.getD (s.buffer.length - 1) 0 - s.timestamps.getD 0 0) / 1000 ≠ 0) :
    (calculateMetrics s ats).1 = analyzeWindow s := by
  simp only [calculateMetrics]
  rw [if_neg h60, if_neg hdur]

/-! ### RMSSD: code form vs spec form -/

/-- The inter-beat interval (ms) ending at peak index `i`: the gap between
`peaks[i-1]` and `peaks[i]` scaled by `1000 / realFps` (cf. lines 146, 149). -/
def ibiAt (peaks : List ℕ) (realFps : ℝ) (i : ℕ) : ℝ :=
  ((peaks.getD i 0 : ℝ) - (peaks.getD (i - 1) 0 : ℝ)) * (1000 / realFps)

/-- Modelled from the spec (§4.5): the inter-beat intervals between
consecutive detected peaks, in milliseconds. -/
def ibiList (peaks : List ℕ) (realFps : ℝ) : List ℝ :=
  (List.range (peaks.length - 1)).map (fun k => ibiAt peaks realFps (k + 1))

/-- Modelled from the spec (§4.5): RMSSD as the root-mean-square of
successive differences between consecutive VALID inter-beat intervals —
intervals outside the 300-1300 ms bound are discarded before differencing. -/
def rmssdSpec (peaks : List ℕ) (realFps : ℝ) : ℝ :=
  let valid := (ibiList peaks realFps).filter (fun d => decide (300 < d ∧ d < 1300))
  let diffs := (List.range (valid.length - 1)).map
    (fun k => valid.getD (k + 1) 0 - valid.getD k 0)
  if 0 < diffs.length then
    Real.sqrt ((diffs.map (fun d => d * d)).sum / (diffs.length : ℝ))
  else 0

/-- The C6 claim's reading of a nonzero rmssd: it is the spec RMSSD over
valid-only intervals. -/
def rmssdMatchesSpec (peaks : List ℕ) (realFps : ℝ) : Prop :=
  rmssdOf peaks realFps ≠ 0 → rmssdOf peaks realFps = rmssdSpec peaks realFps

/-- What the code computes, in closed form: every interval ending at peak
index `i` (with `1 < i`, i.e. a preceding interval exists) that is itself
inside (300, 1300) ms contributes the squared difference with the
immediately preceding interval, whose own validity is NOT checked. -/
def rmssdAmended (peaks : List ℕ) (realFps : ℝ) : ℝ :=
  if 2 < peaks.length then
    let valid := (List.range' 1 (peaks.length - 1)).filter
      (fun i => decide ((300 < ibiAt peaks realFps i ∧ ibiAt peaks realFps i < 1300) ∧ 1 < i))
    let deltas := valid.map (fun i => ibiAt peaks realFps i - ibiAt peaks realFps (i - 1))
    if 0 < deltas.length then
      Real.sqrt ((deltas.map (fun d => d * d)).sum / (deltas.length : ℝ))
    else 0
  else 0

/-- The accumulation loop of `rmssdOf`, characterized as a filtered sum:
exactly the indices passing the (current-interval, `1 < i`) test contribute
their squared delta with the preceding interval. -/
theorem rmssd_fold (peaks : List ℕ) (fps : ℝ) (l : List ℕ) (a : ℝ) (b : ℕ) :
    l.foldl
      (fun (acc : ℝ × ℕ) i =>
        let diffMs := ((peaks.getD i 0 : ℝ) - (peaks.getD (i - 1) 0 : ℝ)) * (1000 / fps)
        if (300 < diffMs ∧ diffMs < 1300) ∧ 1 < i then
          let prevDiff := ((peaks.getD (i - 1) 0 : ℝ) - (peaks.getD (i - 2) 0 : ℝ)) * (1000 / fps)
          let delta := diffMs - prevDiff
          (acc.1 + delta * delta, acc.2 + 1)
        else acc)
      (a, b)
      = (a + ((l.filter
            (fun i => decide ((300 < ibiAt peaks fps i ∧ ibiAt peaks fps i < 1300) ∧ 1 < i))).map
            (fun i => (ibiAt peaks fps i - ibiAt peaks fps (i - 1)) *
              (ibiAt peaks fps i - ibiAt peaks fps (i - 1)))).sum,
         b + (l.filter
            (fun i => decide ((300 < ibiAt peaks fps i ∧ ibiAt peaks fps i < 1300) ∧ 1 < i))).length) := by
  induction l generalizing a b with
  | nil => simp
  | cons x xs ih =>
    rw [List.foldl_cons, List.filter_cons]
    dsimp only
    have hprev : ibiAt peaks fps (x - 1)
        = ((peaks.getD (x - 1) 0 : ℝ) - (peaks.getD (x - 2) 0 : ℝ)) * (1000 / fps) := by
      unfold ibiAt
      rw [show x - 1 - 1 = x - 2 from by omega]
    by_cases h : (300 < ((peaks.getD x 0 : ℝ) - (peaks.getD (x - 1) 0 : ℝ)) * (1000 / fps) ∧
        ((peaks.getD x 0 : ℝ) - (peaks.getD (x - 1) 0 : ℝ)) * (1000 / fps) < 1300) ∧ 1 < x
    · rw [if_pos h,
        if_pos (decide_eq_true
          (show (300 < ibiAt peaks fps x ∧ ibiAt peaks fps x < 1300) ∧ 1 < x from h)),
        ih]
      simp only [List.map_cons, List.sum_cons, List.length_cons]
      refine Prod.ext ?_ ?_
      · show a + _ * _ + _ = a + (_ + _)
        rw [show ibiAt peaks fps x
            = ((peaks.getD x 0 : ℝ) - (peaks.getD (x - 1) 0 : ℝ)) * (1000 / fps) from rfl, hprev]
        ring
      · show b + 1 + _ = b + (_ + 1)
        omega
    · rw [if_neg h,
        if_neg (by
          simp only [decide_eq_true_eq]
          exact fun hq =>
            h (show (300 < ibiAt peaks fps x ∧ ibiAt peaks fps x < 1300) ∧ 1 < x from hq)),
        ih]

theorem rmssdOf_nonneg (peaks : List ℕ) (fps : ℝ) : 0 ≤ rmssdOf peaks fps := by
  unfold rmssdOf
  split
  · dsimp only
    split
    · exact Real.sqrt_nonneg _
    · exact le_rfl
  · exact le_rfl

/-- The code RMSSD equals its closed form `rmssdAmended`. -/
theorem rmssdOf_eq_amended (peaks : List ℕ) (fps : ℝ) :
    rmssdOf peaks fps = rmssdAmended peaks fps := by
  unfold rmssdOf rmssdAmended
  by_cases h3 : 2 < peaks.length
  · rw [if_pos h3, if_pos h3]
    simp only [rmssd_fold, zero_add, List.map_map, Function.comp_def, List.length_map]
  · rw [if_neg h3, if_neg h3]

/-! ### Claims -/

/-- C1: from the initial state, any sequence of `addSample` calls keeps the
buffer length at most `BUFFER_SIZE = 512` and the buffer and timestamp
arrays of equal length; on an add to a full (512-sample, parallel) store the
oldest value and timestamp are evicted together and the newest pushed; below
capacity the add is a plain parallel push; and in every case the newest
sample (`g - r`) and its timestamp are the last entries afterwards. -/
theorem C1_buffer_fifo (rgb : RGB) (t : ℝ) (s : ProcState) :
    (∀ ops : List (RGB × ℝ),
      (addSamples initState ops).buffer.length ≤ BUFFER_SIZE ∧
      (addSamples initState ops).buffer.length = (addSamples initState ops).timestamps.length) ∧
    (s.buffer.length = BUFFER_SIZE → s.timestamps.length = BUFFER_SIZE →
      (addSample rgb t s).buffer = s.buffer.tail ++ [rgb.g - rgb.r] ∧
      (addSample rgb t s).timestamps = s.timestamps.tail ++ [t] ∧
      (addSample rgb t s).buffer.length = BUFFER_SIZE) ∧
    (s.buffer.length < BUFFER_SIZE →
      (addSample rgb t s).buffer = s.buffer ++ [rgb.g - rgb.r] ∧
      (addSample rgb t s).timestamps = s.timestamps ++ [t]) ∧
    ((addSample rgb t s).buffer.getLast? = some (rgb.g - rgb.r)) := by
  refine ⟨?_, ?_, ?_, ?_⟩
  · intro ops
    refine foldl_inv
      (fun st => st.buffer.length ≤ BUFFER_SIZE ∧ st.buffer.length = st.timestamps.length)
      _ ops initState ⟨by simp [initState, BUFFER_SIZE], by simp [initState]⟩ ?_
    rintro st ⟨r0, t0⟩ ⟨h1, h2⟩
    simp only [addSample]
    split
    · constructor
      · simp only [List.length_tail, List.length_append, List.length_singleton]
        omega
      · simp only [List.length_tail, List.length_append, List.length_singleton]
        omega
    · rename_i hle
      simp only [List.length_append, List.length_singleton, not_lt] at hle
      constructor
      · simpa using hle
      · simp [h2]
  · intro hb ht
    have hbne : s.buffer ≠ [] := by
      intro h; rw [h] at hb; simp [BUFFER_SIZE] at hb
    have htne : s.timestamps ≠ [] := by
      intro h; rw [h] at ht; simp [BUFFER_SIZE] at ht
    have hcond : BUFFER_SIZE < (s.buffer ++ [rgb.g - rgb.r]).length := by
      simp only [List.length_append, List.length_singleton, hb]
      omega
    simp only [addSample]
    rw [if_pos hcond]
    refine ⟨tail_append_singleton hbne _, tail_append_singleton htne _, ?_⟩
    simp only [List.length_tail, List.length_append, List.length_singleton, hb]
    omega
  · intro hlt
    have hcond : ¬ BUFFER_SIZE < (s.buffer ++ [rgb.g - rgb.r]).length := by
      simp only [List.length_append, List.length_singleton]
      omega
    simp only [addSample]
    rw [if_neg hcond]
    exact ⟨rfl, rfl⟩
  · simp only [addSample]
    split
    · rename_i hgt
      simp only [List.length_append, List.length_singleton] at hgt
      have hbne : s.buffer ≠ [] := by
        intro h; rw [h] at hgt; simp [BUFFER_SIZE] at hgt
      rw [tail_append_singleton hbne]
      simp [List.getLast?_append_cons]
    · simp [List.getLast?_append_cons]

/-- C1 witness: concrete instances for each hypothesis-guarded conjunct. -/
theorem C1_buffer_fifo_witness :
    (addSample ⟨1, 2, 0⟩ 9 ⟨List.replicate 512 0, List.replicate 512 0, ⟨[], [], []⟩, 0⟩).buffer
        = (List.replicate 512 (0 : ℝ)).tail ++ [2 - 1] ∧
    (addSample ⟨1, 2, 0⟩ 9 initState).buffer = [2 - 1] := by
  constructor
  · exact ((C1_buffer_fifo ⟨1, 2, 0⟩ 9 _).2.1 (by rw [List.length_replicate]; rfl)
      (by rw [List.length_replicate]; rfl)).1
  · have h := ((C1_buffer_fifo ⟨1, 2, 0⟩ 9 initState).2.2.1
      (by rw [initState]; simp [BUFFER_SIZE])).1
    simpa [initState] using h

/-- C2: with fewer than 60 buffered samples, or equal first and last
timestamps (zero elapsed duration), `calculateMetrics` returns the sentinel
`{ bpm: 0, rmssd: 0, snr: 0 }` and leaves the state — in particular
`sessionMetrics` — unchanged, even when `addToSession` is true. -/
theorem C2_insufficient_data (s : ProcState) (ats : Bool)
    (h : s.buffer.length < 60 ∨
      s.timestamps.getD (s.buffer.length - 1) 0 = s.timestamps.getD 0 0) :
    calculateMetrics s ats = (⟨0, 0, 0⟩, s) := by
  simp only [calculateMetrics]
  rcases h with h | h
  · rw [if_pos h]
  · by_cases h60 : s.buffer.length < 60
    · rw [if_pos h60]
    · have hd : (s.timestamps.getD (s.buffer.length - 1) 0 - s.timestamps.getD 0 0) / 1000
          = (0 : ℝ) := by rw [h, sub_self, zero_div]
      rw [if_neg h60, if_pos hd]

/-- C2 witness: the fresh state has 0 < 60 samples; the sentinel is returned
and the state unchanged even with `addToSession = true`. -/
theorem C2_insufficient_data_witness :
    calculateMetrics initState true = (⟨0, 0, 0⟩, initState) :=
  C2_insufficient_data initState true (Or.inl (by simp [initState]))

/-- C7: `applyFilter` returns a list of exactly the input's length for
inputs of length at least 2, and returns the input unchanged for shorter
inputs. -/
theorem C7_filter_length (data : List ℝ) :
    (2 ≤ data.length → (applyFilter data).length = data.length) ∧
    (data.length < 2 → applyFilter data = data) := by
  constructor
  · intro h
    unfold applyFilter
    rw [if_neg (by omega)]
    simp
  · intro h
    unfold applyFilter
    rw [if_pos h]

/-- C7 witness: a length-2 input keeps its length; a short input is
returned unchanged. -/
theorem C7_filter_length_witness :
    (applyFilter [1, 3]).length = 2 ∧ applyFilter [7] = [7] := by
  constructor
  · simpa using (C7_filter_length [1, 3]).1 (by simp)
  · exact (C7_filter_length [7]).2 (by simp)

/-- C8: `reset` is idempotent and safe from any state: one call empties the
buffer, timestamps and all three session sequences and zeroes `lastBpm`,
and a second call yields exactly the same empty state. -/
theorem C8_reset_idempotent (s : ProcState) :
    reset (reset s) = reset s ∧ (reset s).buffer = [] ∧ (reset s).timestamps = [] ∧
    (reset s).sessionMetrics = ⟨[], [], []⟩ ∧ (reset s).lastBpm = 0 :=
  ⟨rfl, rfl, rfl, rfl, rfl⟩

/-- C9: with nothing accumulated, `getFinalReport` returns zero bpm, hrv,
stress and confidence but a nonzero respiration rate of 15. -/
theorem C9_empty_report (s : ProcState) (h : s.sessionMetrics = ⟨[], [], []⟩) :
    getFinalReport s = ⟨0, 0, 0, 15, 0⟩ := by
  have hmed : getMedian [] = 0 := by simp [getMedian]
  have hr0 : roundJS 0 = ((0 : ℤ) : ℝ) := roundJS_eq 0 0 (by norm_num) (by norm_num)
  have hr15 : roundJS 15 = ((15 : ℤ) : ℝ) := roundJS_eq 15 15 (by norm_num) (by norm_num)
  unfold getFinalReport
  rw [h]
  norm_num [hmed, hr0, hr15, jsOr]

/-- C9 witness: the report of the freshly initialized processor. -/
theorem C9_empty_report_witness : getFinalReport initState = ⟨0, 0, 0, 15, 0⟩ :=
  C9_empty_report initState rfl

/-- C10: `calculateMetrics(false)` never changes the buffer, the timestamps
or any of the three `sessionMetrics` sequences — of the processor's fields
only `lastBpm` may change. -/
theorem C10_no_session_effect (s : ProcState) :
    (calculateMetrics s false).2.buffer = s.buffer ∧
    (calculateMetrics s false).2.timestamps = s.timestamps ∧
    (calculateMetrics s false).2.sessionMetrics = s.sessionMetrics := by
  simp only [calculateMetrics]
  split
  · exact ⟨rfl, rfl, rfl⟩
  · split
    · exact ⟨rfl, rfl, rfl⟩
    · exact ⟨rfl, rfl, by simp only [Bool.false_eq_true, false_and, if_false]⟩

/-- C3: `getFinalReport` aggregates by median, not mean: with accumulated
session bpm samples `[70, 71, 69, 250]` the reported bpm is 71 (the rounded
median 70.5 of the inlier cluster, within 1 of 70), not the mean-based 115
skewed toward the 250 outlier; and confidence is 1 exactly when more than 5
bpm samples were accumulated, 0 otherwise. -/
theorem C3_median_confidence :
    (∀ s : ProcState, (getFinalReport s).confidence =
      if 5 < s.sessionMetrics.bpm.length then 1 else 0) ∧
    (∀ s : ProcState, s.sessionMetrics.bpm = [70, 71, 69, 250] →
      (getFinalReport s).bpm = 71 ∧ getMedian [70, 71, 69, 250] = 141 / 2 ∧
      roundJS ((70 + 71 + 69 + 250) / 4) = 115) := by
  have hsort : sortAsc [70, 71, 69, 250] = [(69 : ℝ), 70, 71, 250] := by
    norm_num [sortAsc, insertSorted]
  have hmed : getMedian [70, 71, 69, 250] = 141 / 2 := by
    norm_num [getMedian, hsort, List.getD]
  refine ⟨fun s => rfl, fun s h => ⟨?_, hmed, ?_⟩⟩
  · have hr : roundJS (141 / 2) = ((71 : ℤ) : ℝ) := roundJS_eq _ 71 (by norm_num) (by norm_num)
    unfold getFinalReport
    rw [h]
    norm_num [hmed, hr, jsOr]
  · have : ((70 : ℝ) + 71 + 69 + 250) / 4 = 115 := by norm_num
    rw [this]
    exact_mod_cast roundJS_eq 115 115 (by norm_num) (by norm_num)

/-- C3 witness: a concrete session with exactly those four accumulated bpm
values reports bpm 71 and (only 4 ≤ 5 samples) confidence 0. -/
theorem C3_median_confidence_witness :
    (getFinalReport ⟨[], [], ⟨[70, 71, 69, 250], [], []⟩, 0⟩).bpm = 71 ∧
    (getFinalReport ⟨[], [], ⟨[70, 71, 69, 250], [], []⟩, 0⟩).confidence = 0 := by
  constructor
  · exact ((C3_median_confidence.2 ⟨[], [], ⟨[70, 71, 69, 250], [], []⟩, 0⟩) rfl).1
  · have h := C3_median_confidence.1 ⟨[], [], ⟨[70, 71, 69, 250], [], []⟩, 0⟩
    simpa using h

/-- C4: on `calculateMetrics(true)` the session sequences change exactly
when the quality gate passes (`snr > 1.3` and bpm strictly inside 45-180):
then the window bpm is appended, rmssd is appended only when positive, and
the appended stress value is `stressOf` of the window, which is a weighted
combination of clamped BPM elevation and clamped HRV deficit lying in
`[0, 100]`; when the gate fails, `sessionMetrics` is unchanged. -/
theorem C4_session_accumulation (s : ProcState) :
    ((calculateMetrics s true).2.sessionMetrics =
      if 1.3 < (calculateMetrics s true).1.snr ∧ 45 < (calculateMetrics s true).1.bpm ∧
          (calculateMetrics s true).1.bpm < 180 then
        { bpm := s.sessionMetrics.bpm ++ [(calculateMetrics s true).1.bpm]
          hrv := if 0 < (calculateMetrics s true).1.rmssd then
              s.sessionMetrics.hrv ++ [(calculateMetrics s true).1.rmssd]
            else s.sessionMetrics.hrv
          stress := s.sessionMetrics.stress ++
            [stressOf (calculateMetrics s true).1.bpm (calculateMetrics s true).1.rmssd] }
      else s.sessionMetrics) ∧
    (∀ b r : ℝ, 0 ≤ stressOf b r ∧ stressOf b r ≤ 100) := by
  constructor
  · simp only [calculateMetrics]
    split
    · norm_num
    · split
      · norm_num
      · simp only [eq_self_iff_true, true_and]
  · intro b r
    simp only [stressOf]
    have h1 : (0 : ℝ) ≤ min 100 (max 0 ((b - 50) * 1.5)) := le_min (by norm_num) (le_max_left _ _)
    have h2 : (0 : ℝ) ≤ min 100 (max 0 (100 - r)) := le_min (by norm_num) (le_max_left _ _)
    have h3 : min 100 (max 0 ((b - 50) * 1.5)) ≤ (100 : ℝ) := min_le_left _ _
    have h4 : min 100 (max 0 (100 - r)) ≤ (100 : ℝ) := min_le_left _ _
    constructor <;> nlinarith

/-- `getD` of a mapped range evaluates pointwise. -/
theorem getD_map_range (f : ℕ → ℝ) {n i : ℕ} (h : i < n) :
    ((List.range n).map f).getD i 0 = f i := by
  rw [List.getD_eq_getElem _ 0 (by simpa using h)]
  simp

/-- A flat 60-sample state with positive elapsed duration whose `lastBpm`
memory is 100. -/
def cexC5 : ProcState :=
  ⟨List.replicate 60 7, (List.range 60).map (fun i : ℕ => (i : ℝ)), ⟨[], [], []⟩, 100⟩

/-- C5 counterexample: `cexC5` satisfies every premise of the claim — a
constant (zero-variance) 60-sample buffer with positive elapsed duration —
yet `calculateMetrics` returns bpm 80, not 0: the raw spectral bpm is 0, but
the jump-rejection blend with `lastBpm = 100` yields `100·0.8 + 0·0.2`. -/
theorem C5_counterexample :
    (∀ x ∈ cexC5.buffer, x = (7 : ℝ)) ∧ 60 ≤ cexC5.buffer.length ∧
    0 < cexC5.timestamps.getD (cexC5.buffer.length - 1) 0 - cexC5.timestamps.getD 0 0 ∧
    (calculateMetrics cexC5 true).1.bpm = 80 ∧
    ¬(calculateMetrics cexC5 true).1.bpm = 0 := by
  have hc : ∀ x ∈ cexC5.buffer, x = (7 : ℝ) := fun x hx => List.eq_of_mem_replicate hx
  have hlen : cexC5.buffer.length = 60 := by
    show (List.replicate 60 (7 : ℝ)).length = 60
    rw [List.length_replicate]
  have h59 : cexC5.timestamps.getD 59 0 = 59 := by
    show ((List.range 60).map (fun i : ℕ => (i : ℝ))).getD 59 0 = 59
    rw [getD_map_range _ (by norm_num)]
    norm_num
  have h0 : cexC5.timestamps.getD 0 0 = 0 := by
    show ((List.range 60).map (fun i : ℕ => (i : ℝ))).getD 0 0 = 0
    rw [getD_map_range _ (by norm_num)]
    norm_num
  have hdur : 0 < cexC5.timestamps.getD (cexC5.buffer.length - 1) 0 -
      cexC5.timestamps.getD 0 0 := by
    rw [hlen]
    show (0 : ℝ) < cexC5.timestamps.getD 59 0 - cexC5.timestamps.getD 0 0
    rw [h59, h0]
    norm_num
  have hcm := calculateMetrics_heavy cexC5 true (by rw [hlen]; omega)
    (div_ne_zero (ne_of_gt hdur) (by norm_num))
  have hfl := (analyzeWindow_flat hc (by rw [hlen]; omega)).1
  have hbpm : (calculateMetrics cexC5 true).1.bpm = 80 := by
    rw [hcm, hfl]
    show (if (20 : ℝ) < 100 then (100 : ℝ) * 0.8 else 0) = 80
    norm_num
  exact ⟨hc, by rw [hlen], hdur, hbpm, by rw [hbpm]; norm_num⟩

/-- C5 (amended): for every constant (zero-variance) buffer window of at
least 60 samples with positive elapsed duration, `calculateMetrics` yields
`snr = 0`, and yields `bpm = 0` provided the last-BPM smoothing memory is at
most 20 (in particular on the first analysis after a reset); with
`lastBpm > 20` the jump-rejection blend returns `0.8·lastBpm` instead. -/
theorem C5_flat_window (s : ProcState) (ats : Bool) (c : ℝ)
    (hc : ∀ x ∈ s.buffer, x = c) (h60 : 60 ≤ s.buffer.length)
    (hdur : 0 < s.timestamps.getD (s.buffer.length - 1) 0 - s.timestamps.getD 0 0) :
    (calculateMetrics s ats).1.snr = 0 ∧
    (s.lastBpm ≤ 20 → (calculateMetrics s ats).1.bpm = 0) := by
  have hcm := calculateMetrics_heavy s ats (by omega)
    (div_ne_zero (ne_of_gt hdur) (by norm_num))
  have hfl := analyzeWindow_flat hc (by omega)
  rw [hcm]
  exact ⟨hfl.2.1, fun hle => by rw [hfl.1, if_neg (not_lt.mpr hle)]⟩

/-- A flat 60-sample state with positive elapsed duration and a fresh
(zero) `lastBpm`. -/
def witC5 : ProcState :=
  ⟨List.replicate 60 5, (List.range 60).map (fun i : ℕ => (i : ℝ) * 33), ⟨[], [], []⟩, 0⟩

/-- C5 witness: the amended claim at a concrete flat window. -/
theorem C5_flat_window_witness :
    (calculateMetrics witC5 false).1.snr = 0 ∧ (calculateMetrics witC5 false).1.bpm = 0 := by
  have hlen : witC5.buffer.length = 60 := by
    show (List.replicate 60 (5 : ℝ)).length = 60
    rw [List.length_replicate]
  have h := C5_flat_window witC5 false 5 (fun x hx => List.eq_of_mem_replicate hx)
    (by rw [hlen])
    (by
      rw [hlen]
      show (0 : ℝ) < ((List.range 60).map (fun i : ℕ => (i : ℝ) * 33)).getD 59 0 -
        ((List.range 60).map (fun i : ℕ => (i : ℝ) * 33)).getD 0 0
      rw [getD_map_range _ (by norm_num), getD_map_range _ (by norm_num)]
      norm_num)
  exact ⟨h.1, h.2 (by show (0 : ℝ) ≤ 20; norm_num)⟩

/-- A window on which `findPeaks` detects peaks `[2, 5, 10]`: 3 and 5
samples apart, i.e. inter-beat intervals of 300 ms (invalid, not > 300) and
500 ms (valid) at 10 fps. -/
def d13 : List ℝ := [0, 0, 1, 0, 0, 1, 0, 0, 0, 0, 1, 0, 0]

/-- C6 counterexample: on the peaks `findPeaks` detects in `d13` at 10 fps
the code's rmssd is 200 ≠ 0, yet only one valid inter-beat interval
(500 ms) exists, so the claimed RMSSD over successive differences of
consecutive valid intervals is 0: the 200 arises from differencing the
valid 500 ms interval against the discarded 300 ms one. -/
theorem C6_counterexample :
    findPeaks d13 = [2, 5, 10] ∧ rmssdOf [2, 5, 10] 10 = 200 ∧
    rmssdSpec [2, 5, 10] 10 = 0 ∧ ¬rmssdMatchesSpec (findPeaks d13) 10 := by
  have hp : findPeaks d13 = [2, 5, 10] := by
    unfold findPeaks d13
    norm_num [List.range']
  have hcode : rmssdOf [2, 5, 10] 10 = 200 := by
    unfold rmssdOf
    norm_num [List.range']
    rw [show (40000 : ℝ) = 200 ^ 2 from by norm_num]
    exact Real.sqrt_sq (by norm_num)
  have hspec : rmssdSpec [2, 5, 10] 10 = 0 := by
    unfold rmssdSpec ibiList ibiAt
    norm_num [List.range_succ, List.filter]
  refine ⟨hp, hcode, hspec, ?_⟩
  unfold rmssdMatchesSpec
  rw [hp, hcode, hspec]
  intro hcl
  exact absurd (hcl (by norm_num)) (by norm_num)

/-- C6 (amended): the rmssd returned by `calculateMetrics` is never
negative; `rmssdOf` returns 0 for fewer than 3 detected peaks; and the code
RMSSD always equals `rmssdAmended`: the root-mean-square of the differences
between each valid (300-1300 ms) inter-beat interval and its immediately
preceding interval, where the preceding interval is used without a validity
check of its own. -/
theorem C6_rmssd_form (s : ProcState) (b : Bool) (peaks : List ℕ) (fps : ℝ) :
    0 ≤ (calculateMetrics s b).1.rmssd ∧
    (peaks.length < 3 → rmssdOf peaks fps = 0) ∧
    rmssdOf peaks fps = rmssdAmended peaks fps := by
  refine ⟨?_, ?_, rmssdOf_eq_amended peaks fps⟩
  · simp only [calculateMetrics]
    split
    · exact le_rfl
    · split
      · exact le_rfl
      · exact rmssdOf_nonneg _ _
  · intro hlen
    unfold rmssdOf
    rw [if_neg (by omega)]

/-- C6 witness: the amended claim at concrete inputs. -/
theorem C6_rmssd_form_witness :
    0 ≤ (calculateMetrics initState false).1.rmssd ∧ rmssdOf [3, 8] 30 = 0 :=
  ⟨(C6_rmssd_form initState false [3, 8] 30).1,
   (C6_rmssd_form initState false [3, 8] 30).2.1 (by simp)⟩

end Biosens
